import Mathlib

/-!
# ReadAccData.c : the C-runtime hosting shim

Shallow embedding of the newlib hosting stubs of
`CoX/Driver/Sensor_Accelerometer/LIS302DL/Driver/example/ReadAccData/src/ReadAccData.c`
(`_sbrk`, `link`, `_close`, `_fstat`, `_isatty`, `_lseek`, `_read`, `_write`, `abort`).

The target is a 32-bit Cortex-M part: a pointer is a 32-bit word, so an address is a
natural number below `2 ^ 32` and pointer arithmetic is taken modulo `2 ^ 32`.
The C `int` arguments are embedded in `Int`; every theorem quantified over `Int`
covers in particular the 32-bit range of the C type.
-/

set_option linter.unusedVariables false

namespace ReadAccData

/-! ## Data model -/

/-- Number of addresses of the 32-bit target, `2 ^ 32`. -/
def PTR_MOD : Nat := 4294967296

/-- An address: the value of a C pointer on the target. -/
abbrev Addr := Fin 4294967296

/-- The null pointer. -/
def NULL : Addr := ⟨0, by decide⟩

/-- Pointer arithmetic `p + incr` on a byte pointer, wrapping at the address width. -/
def ptr_add (p : Addr) (incr : Int) : Addr :=
  ⟨(((p.val : Int) + incr) % 4294967296).toNat, by
    have h := Int.emod_lt_of_pos ((p.val : Int) + incr) (by decide : (0 : Int) < 4294967296)
    have h0 := Int.emod_nonneg ((p.val : Int) + incr) (by decide : (4294967296 : Int) ≠ 0)
    omega⟩

/-- One call of the serial transmit primitive `xUARTCharPut(ulBase, ucData)`. -/
structure UartCall where
  ulBase : Nat
  ucData : Nat
deriving DecidableEq

/-- The mutable state the stubs can reach: the function-local `static` pointer `heap`
of `_sbrk`, and the calls made so far to the external primitive `xUARTCharPut`. -/
structure World where
  heap : Addr
  uart : List UartCall
deriving DecidableEq

/-- The state at program start: `static unsigned char *heap = NULL;`, nothing sent. -/
def World.init : World := { heap := NULL, uart := [] }

/-! ## `_sbrk` -/

/-- The function `caddr_t _sbrk(int incr)`. The parameter `_end` is the address `&_end`
of the linker symbol declared `extern int _end;`. Returns `prev_heap` and the new state. -/
def _sbrk (_end : Addr) (incr : Int) (w : World) : Addr × World :=
  let heap := if w.heap = NULL then _end else w.heap
  let prev_heap := heap
  let heap := ptr_add heap incr
  (prev_heap, { w with heap := heap })

/-- The heap cursor as `_sbrk` sees it: the value of `heap` after the lazy initialisation
`if (heap == NULL) heap = &_end;`, so an uninitialised cursor counts as `&_end`. -/
def cursor (_end : Addr) (w : World) : Addr :=
  if w.heap = NULL then _end else w.heap

/-- Successive calls `_sbrk(i1)`, `_sbrk(i2)`, ...: the returned addresses, in call order,
and the state after the last call. -/
def sbrk_calls (_end : Addr) : List Int → World → List Addr × World
  | [], w => ([], w)
  | incr :: rest, w =>
    let r := _sbrk _end incr w
    let rs := sbrk_calls _end rest r.2
    (r.1 :: rs.1, rs.2)

/-- The cursor value after each of the successive calls `_sbrk(i1)`, `_sbrk(i2)`, ... -/
def sbrk_cursors (_end : Addr) : List Int → World → List Addr
  | [], _ => []
  | incr :: rest, w =>
    let w1 := (_sbrk _end incr w).2
    cursor _end w1 :: sbrk_cursors _end rest w1

/-! ## The fixed stubs -/

/-- The function `int link(char *old, char *new)`. -/
def link (old new : Addr) (w : World) : Int × World :=
  (-1, w)

/-- The function `int _close(int file)`. -/
def _close (file : Int) (w : World) : Int × World :=
  (-1, w)

/-- The record `struct stat` of `<sys/stat.h>`: the field `st_mode`, and the remaining
fields, whose declaration belongs to the C library header, kept as one component. -/
structure stat (Rest : Type) where
  st_mode : Nat
  rest : Rest

/-- The function `int _fstat(int file, struct stat *st)`. The parameter `S_IFCHR` is the
character-device constant of `<sys/stat.h>`. Returns the result and the record `*st`. -/
def _fstat {Rest : Type} (S_IFCHR : Nat) (file : Int) (st : stat Rest) (w : World) :
    Int × stat Rest × World :=
  (0, { st with st_mode := S_IFCHR }, w)

/-- The function `int _isatty(int file)`. -/
def _isatty (file : Int) (w : World) : Int × World :=
  (1, w)

/-- The function `int _lseek(int file, int ptr, int dir)`. -/
def _lseek (file ptr dir : Int) (w : World) : Int × World :=
  (0, w)

/-- The function `int _read(int file, char *ptr, int len)`. The byte memory `mem` that
`ptr` points into is returned with the result. -/
def _read (file : Int) (ptr : Addr) (len : Int) (mem : Addr → Nat) (w : World) :
    Int × (Addr → Nat) × World :=
  (0, mem, w)

/-! ## `_write` -/

/-- Modelled from the spec: the serial transmit primitive `xUARTCharPut` is declared in
`xuart.h` and defined outside this file; it is the blocking "send one character"
collaborator, so a call is recorded, in call order, with its two arguments. -/
def xUARTCharPut (ulBase : Nat) (ucData : Nat) (w : World) : World :=
  { w with uart := w.uart ++ [⟨ulBase, ucData⟩] }

/-- The loop `for (i = 0; i < len; i++) xUARTCharPut(USART2_BASE, *ptr++);` of `_write`,
entered with the current values of `i` and `ptr`. -/
def write_loop (USART2_BASE : Nat) (mem : Addr → Nat) (len : Int) (i : Int) (ptr : Addr)
    (w : World) : World :=
  if i < len then
    write_loop USART2_BASE mem len (i + 1) (ptr_add ptr 1) (xUARTCharPut USART2_BASE (mem ptr) w)
  else
    w
termination_by (len - i).toNat
decreasing_by omega

/-- The function `int _write(int file, char *ptr, int len)`. The parameter `USART2_BASE`
is the base address constant of the transmitter, `mem` the byte memory `ptr` points into. -/
def _write (USART2_BASE : Nat) (file : Int) (mem : Addr → Nat) (ptr : Addr) (len : Int)
    (w : World) : Int × World :=
  let i : Int := 0
  (len, write_loop USART2_BASE mem len i ptr w)

/-! ## `abort` -/

/-- Control points of `void abort(void) { while(1); }`: at the loop test, or returned. -/
inductive AbortPc where
  | loop_test
  | returned
deriving DecidableEq

/-- One step of `abort`: the test of `while(1)` with its empty body. -/
def abort_step : AbortPc → AbortPc
  | AbortPc.loop_test => if (1 : Int) ≠ 0 then AbortPc.loop_test else AbortPc.returned
  | AbortPc.returned => AbortPc.returned

/-- The control point reached `n` steps after the given one. -/
def abort_steps : Nat → AbortPc → AbortPc
  | 0, pc => pc
  | n + 1, pc => abort_steps n (abort_step pc)

/-- The function `void abort(void)`, run for at most `fuel` evaluations of the loop test:
`some w` when it has returned in state `w`, `none` when it is still inside the loop. -/
def abort : Nat → World → Option World
  | 0, _ => none
  | fuel + 1, w => if (1 : Int) ≠ 0 then abort fuel w else some w

/-! ## Concrete values used in the worked instances -/

/-- An example value of `&_end`: `0x20000000`, the first address of on-chip SRAM. -/
def SRAM_BASE : Addr := ⟨0x20000000, by decide⟩

/-- An example byte memory: the text "AB" at address `0x20000100`, zero elsewhere. -/
def mem_AB : Addr → Nat := fun a =>
  if a.val = 0x20000100 then 65 else if a.val = 0x20000101 then 66 else 0

/-- The address `0x20000100` of the text in `mem_AB`. -/
def ptr_AB : Addr := ⟨0x20000100, by decide⟩

/-! ## Lemmas on pointer arithmetic and the cursor -/

theorem ptr_add_val (p : Addr) (incr : Int) :
    ((ptr_add p incr).val : Int) = ((p.val : Int) + incr) % 4294967296 := by
  have h0 := Int.emod_nonneg ((p.val : Int) + incr) (by decide : (4294967296 : Int) ≠ 0)
  simp only [ptr_add]
  omega

theorem ptr_add_val_exact (p : Addr) (incr : Int) (h0 : 0 ≤ (p.val : Int) + incr)
    (h1 : (p.val : Int) + incr < 4294967296) :
    ((ptr_add p incr).val : Int) = (p.val : Int) + incr := by
  rw [ptr_add_val]
  omega

theorem ptr_add_zero (p : Addr) : ptr_add p 0 = p := by
  apply Fin.ext
  have h := ptr_add_val p 0
  have hp := p.isLt
  omega

theorem ptr_add_add (p : Addr) (a b : Int) : ptr_add (ptr_add p a) b = ptr_add p (a + b) := by
  apply Fin.ext
  have h1 := ptr_add_val p a
  have h2 := ptr_add_val (ptr_add p a) b
  have h3 := ptr_add_val p (a + b)
  omega

theorem addr_eq_NULL_iff (p : Addr) : p = NULL ↔ p.val = 0 := by
  constructor
  · intro h
    rw [h]
    rfl
  · intro h
    exact Fin.ext h

theorem sbrk_ret (E : Addr) (incr : Int) (w : World) : (_sbrk E incr w).1 = cursor E w := rfl

theorem sbrk_heap (E : Addr) (incr : Int) (w : World) :
    (_sbrk E incr w).2.heap = ptr_add (cursor E w) incr := rfl

theorem sbrk_uart (E : Addr) (incr : Int) (w : World) : (_sbrk E incr w).2.uart = w.uart := rfl

/-- A cursor that reads as the null address can only come from `&_end` being null. -/
theorem end_of_cursor_null (E : Addr) (w : World) (h : cursor E w = NULL) : E = NULL := by
  unfold cursor at h
  split at h
  · exact h
  · contradiction

/-- After a call with a non-negative increment that does not wrap, the cursor has moved
by exactly the increment. -/
theorem cursor_sbrk_val (E : Addr) (incr : Int) (w : World) (h0 : 0 ≤ incr)
    (h1 : ((cursor E w).val : Int) + incr < 4294967296) :
    ((cursor E (_sbrk E incr w).2).val : Int) = ((cursor E w).val : Int) + incr := by
  have hv := ptr_add_val_exact (cursor E w) incr (by omega) h1
  by_cases hz : ptr_add (cursor E w) incr = NULL
  · have hz0 : (ptr_add (cursor E w) incr).val = 0 := (addr_eq_NULL_iff _).1 hz
    have hc : cursor E w = NULL := (addr_eq_NULL_iff _).2 (by omega)
    have hE : E = NULL := end_of_cursor_null E w hc
    have : cursor E (_sbrk E incr w).2 = E := by
      unfold cursor
      rw [sbrk_heap, if_pos hz]
    have hEv : E.val = 0 := (addr_eq_NULL_iff _).1 hE
    rw [this]
    omega
  · have : cursor E (_sbrk E incr w).2 = ptr_add (cursor E w) incr := by
      show (if (_sbrk E incr w).2.heap = NULL then E else (_sbrk E incr w).2.heap) = _
      rw [sbrk_heap, if_neg hz]
    rw [this, hv]

theorem range_map_succ {α : Type} (f : Nat → α) (n : Nat) :
    (List.range (n + 1)).map f = f 0 :: (List.range n).map (fun k => f (k + 1)) := by
  rw [List.range_succ_eq_map, List.map_cons, List.map_map]
  rfl

theorem sbrk_calls_cons (E : Addr) (i : Int) (rest : List Int) (w : World) :
    (sbrk_calls E (i :: rest) w).1 = cursor E w :: (sbrk_calls E rest (_sbrk E i w).2).1 := rfl

/-- Successive calls with positive increments, from any state, as long as every expected
address stays below `2 ^ 32`. -/
theorem sbrk_calls_spec (E : Addr) : ∀ (incs : List Int) (w : World),
    (∀ i ∈ incs, 0 < i) →
    (∀ k, k < incs.length →
      ((cursor E w).val : Int) + (incs.take k).sum < 4294967296) →
    (sbrk_calls E incs w).1.map (fun a => (a.val : Int))
        = (List.range incs.length).map
            (fun k => ((cursor E w).val : Int) + (incs.take k).sum)
      ∧ (∀ a ∈ (sbrk_calls E incs w).1, cursor E w ≤ a)
      ∧ (sbrk_calls E incs w).1.Pairwise (· < ·) := by
  intro incs
  induction incs with
  | nil =>
    intro w _ _
    simp [sbrk_calls]
  | cons i rest ih =>
    intro w hpos hfit
    have hi : 0 < i := hpos i (List.mem_cons_self _ _)
    have hrest : ∀ j ∈ rest, 0 < j := fun j hj => hpos j (List.mem_cons_of_mem _ hj)
    rw [sbrk_calls_cons]
    rcases rest with _ | ⟨j, rest1⟩
    · refine ⟨Eq.trans ?_ (range_map_succ _ _).symm, ?_, ?_⟩ <;> simp [sbrk_calls]
    · have hstep : ((cursor E w).val : Int) + i < 4294967296 := by
        have := hfit 1 (by simp)
        simpa using this
      have hc1 := cursor_sbrk_val E i w (le_of_lt hi) hstep
      have hfit1 : ∀ k, k < (j :: rest1).length →
          ((cursor E (_sbrk E i w).2).val : Int) + ((j :: rest1).take k).sum < 4294967296 := by
        intro k hk
        have := hfit (k + 1) (by simpa using hk)
        rw [List.take_succ_cons, List.sum_cons] at this
        omega
      obtain ⟨heq, hlow, hpw⟩ := ih (_sbrk E i w).2 hrest hfit1
      have hlt : cursor E w < cursor E (_sbrk E i w).2 := by
        rw [Fin.lt_def]
        omega
      refine ⟨?_, ?_, ?_⟩
      · rw [List.map_cons, heq]
        refine Eq.trans ?_ (range_map_succ _ _).symm
        simp only [List.take_zero, List.sum_nil, add_zero, List.take_succ_cons, List.sum_cons,
          hc1, add_assoc]
      · intro a ha
        rcases List.mem_cons.1 ha with h | h
        · rw [h]
        · exact le_of_lt (lt_of_lt_of_le hlt (hlow a h))
      · rw [List.pairwise_cons]
        exact ⟨fun a ha => lt_of_lt_of_le hlt (hlow a ha), hpw⟩

/-- A state whose `heap` holds the cursor of `w` has the same cursor as `w`. -/
theorem cursor_of_heap_eq (E : Addr) (w w1 : World) (h : w1.heap = cursor E w) :
    cursor E w1 = cursor E w := by
  by_cases hz : w1.heap = NULL
  · have hE : E = NULL := end_of_cursor_null E w (h.symm.trans hz)
    unfold cursor
    rw [if_pos hz]
    by_cases hw : w.heap = NULL
    · rw [if_pos hw]
    · rw [if_neg hw, hE]
      have : w.heap = NULL := by
        have := h.symm.trans hz
        unfold cursor at this
        rw [if_neg hw] at this
        exact this
      exact this.symm
  · have : cursor E w1 = w1.heap := by
      unfold cursor
      rw [if_neg hz]
    rw [this, h]

theorem sbrk_cursors_chain (E : Addr) : ∀ (incs : List Int) (w : World),
    (∀ i ∈ incs, 0 ≤ i) →
    ((cursor E w).val : Int) + incs.sum < 4294967296 →
    List.Chain (· ≤ ·) (cursor E w) (sbrk_cursors E incs w) := by
  intro incs
  induction incs with
  | nil =>
    intro w _ _
    exact List.Chain.nil
  | cons i rest ih =>
    intro w hnn hfit
    have hi : 0 ≤ i := hnn i (List.mem_cons_self _ _)
    have hrest : ∀ j ∈ rest, 0 ≤ j := fun j hj => hnn j (List.mem_cons_of_mem _ hj)
    have hsum : 0 ≤ rest.sum := List.sum_nonneg hrest
    rw [List.sum_cons] at hfit
    have hc1 := cursor_sbrk_val E i w hi (by omega)
    show List.Chain (· ≤ ·) (cursor E w)
      (cursor E (_sbrk E i w).2 :: sbrk_cursors E rest (_sbrk E i w).2)
    refine List.Chain.cons ?_ (ih (_sbrk E i w).2 hrest (by omega))
    rw [Fin.le_def]
    omega

theorem write_loop_done (B : Nat) (mem : Addr → Nat) (len i : Int) (ptr : Addr) (w : World)
    (h : len ≤ i) : write_loop B mem len i ptr w = w := by
  rw [write_loop, if_neg (by omega)]

theorem write_loop_spec (B : Nat) (mem : Addr → Nat) (len : Int) :
    ∀ (k : Nat) (i : Int) (ptr : Addr) (w : World), i + (k : Int) = len →
      write_loop B mem len i ptr w =
        { w with uart := w.uart ++
            (List.range k).map (fun (j : Nat) => UartCall.mk B (mem (ptr_add ptr (j : Int)))) } := by
  intro k
  induction k with
  | zero =>
    intro i ptr w h
    rw [write_loop_done B mem len i ptr w (by omega)]
    simp
  | succ k ih =>
    intro i ptr w h
    rw [write_loop, if_pos (by omega), ih (i + 1) (ptr_add ptr 1) _ (by omega), range_map_succ]
    have h0 : ptr_add ptr ((0 : Nat) : Int) = ptr := ptr_add_zero ptr
    have hj : ∀ j : Nat, ptr_add (ptr_add ptr 1) (j : Int) = ptr_add ptr ((j + 1 : Nat) : Int) := by
      intro j
      rw [ptr_add_add]
      congr 1
      omega
    simp only [xUARTCharPut, h0, hj, List.append_assoc, List.singleton_append]

theorem range_map_getD (b : List Nat) : (List.range b.length).map (fun j => b.getD j 0) = b := by
  apply List.ext_getElem
  · simp
  · intro n h1 h2
    simp [List.getD_eq_getElem?_getD, List.getElem?_eq_getElem h2]

/-! ## The claims -/

/-- C1 (amended): for every sequence of strictly positive increments passed to successive
`_sbrk` calls starting from the uninitialised cursor, provided every expected address
`&_end + i1 + ... + i(k-1)` (for `k` up to the number of calls) is below `2 ^ 32`, the
`k`-th returned address equals `&_end + i1 + ... + i(k-1)` and the returned addresses are
strictly increasing. -/
theorem sbrk_positive_increments (E : Addr) (incs : List Int)
    (hpos : ∀ i ∈ incs, 0 < i)
    (hfit : ∀ k, k < incs.length → (E.val : Int) + (incs.take k).sum < 4294967296) :
    (sbrk_calls E incs World.init).1.map (fun a => (a.val : Int))
        = (List.range incs.length).map (fun k => (E.val : Int) + (incs.take k).sum)
      ∧ (sbrk_calls E incs World.init).1.Pairwise (· < ·) := by
  have h := sbrk_calls_spec E incs World.init hpos hfit
  exact ⟨h.1, h.2.2⟩

/-- C1, instance: with `&_end = 0x20000000`, the calls `_sbrk(100)`, `_sbrk(50)`, `_sbrk(7)`
return `&_end`, `&_end + 100`, `&_end + 150`. -/
theorem sbrk_positive_increments_witness :
    (∀ i ∈ [(100 : Int), 50, 7], 0 < i)
      ∧ (sbrk_calls SRAM_BASE [100, 50, 7] World.init).1.map (fun a => (a.val : Int))
        = [0x20000000, 0x20000000 + 100, 0x20000000 + 150]
      ∧ (sbrk_calls SRAM_BASE [100, 50, 7] World.init).1.Pairwise (· < ·) :=
  ⟨by decide, sbrk_positive_increments SRAM_BASE [100, 50, 7] (by decide) (by decide)⟩

/-- C1 as stated fails when the running total leaves the 32-bit address range: with
`&_end = 0x20000000`, three calls `_sbrk(0x7FFFFFFF)` return `0x20000000`, `0x9FFFFFFF`,
`0x1FFFFFFE` (the pointer wraps), and the calls `_sbrk(0x70000000)`, `_sbrk(0x70000000)`,
`_sbrk(1)` return `0x20000000`, `0x90000000`, `0x20000000` (the pointer reaches `NULL` and
is initialised again). In both runs the third address is neither the sum nor above the
second. -/
theorem sbrk_wraps_address_space :
    (∀ i ∈ [(0x7FFFFFFF : Int), 0x7FFFFFFF, 0x7FFFFFFF], 0 < i)
      ∧ (sbrk_calls SRAM_BASE [0x7FFFFFFF, 0x7FFFFFFF, 0x7FFFFFFF] World.init).1.map
          (fun a => (a.val : Int)) = [0x20000000, 0x9FFFFFFF, 0x1FFFFFFE]
      ∧ ¬ ((sbrk_calls SRAM_BASE [0x7FFFFFFF, 0x7FFFFFFF, 0x7FFFFFFF] World.init).1.map
            (fun a => (a.val : Int))
          = (List.range 3).map (fun k => (SRAM_BASE.val : Int)
              + (([0x7FFFFFFF, 0x7FFFFFFF, 0x7FFFFFFF] : List Int).take k).sum))
      ∧ ¬ (sbrk_calls SRAM_BASE [0x7FFFFFFF, 0x7FFFFFFF, 0x7FFFFFFF] World.init).1.Pairwise
            (· < ·)
      ∧ (∀ i ∈ [(0x70000000 : Int), 0x70000000, 1], 0 < i)
      ∧ (sbrk_calls SRAM_BASE [0x70000000, 0x70000000, 1] World.init).1.map
          (fun a => (a.val : Int)) = [0x20000000, 0x90000000, 0x20000000]
      ∧ ¬ (sbrk_calls SRAM_BASE [0x70000000, 0x70000000, 1] World.init).1.Pairwise
            (· < ·) := by
  decide

/-- C2: in every state, `_sbrk(0)` returns the current cursor and does not advance it (the
static `heap` then holds that cursor and nothing else changes), and an immediately
following `_sbrk` call, whatever its increment, returns the address `_sbrk(0)` returned. -/
theorem sbrk_zero_returns_cursor (E : Addr) (w : World) (incr : Int) :
    (_sbrk E 0 w).1 = cursor E w
      ∧ cursor E (_sbrk E 0 w).2 = cursor E w
      ∧ (_sbrk E 0 w).2.heap = cursor E w
      ∧ (_sbrk E 0 w).2.uart = w.uart
      ∧ (_sbrk E incr (_sbrk E 0 w).2).1 = (_sbrk E 0 w).1 := by
  have hheap : (_sbrk E 0 w).2.heap = cursor E w := by
    rw [sbrk_heap, ptr_add_zero]
  have hcur : cursor E (_sbrk E 0 w).2 = cursor E w := cursor_of_heap_eq E w _ hheap
  refine ⟨rfl, hcur, hheap, rfl, ?_⟩
  rw [sbrk_ret, sbrk_ret, hcur]

/-- C3: for every descriptor and every byte buffer `b` of length `n` stored at `ptr`,
`_write(fd, ptr, n)` makes exactly `n` further calls to `xUARTCharPut`, all on
`USART2_BASE`, the `i`-th carrying `b[i]`, in buffer order, changes nothing else, and
returns `n`; the outcome is the same for every descriptor. -/
theorem write_transmits_buffer (USART2_BASE : Nat) (file : Int) (mem : Addr → Nat)
    (ptr : Addr) (b : List Nat) (w : World)
    (hb : ∀ i, i < b.length → mem (ptr_add ptr (i : Int)) = b.getD i 0) :
    _write USART2_BASE file mem ptr (b.length : Int) w
        = ((b.length : Int),
            { w with uart := w.uart ++ b.map (fun c => UartCall.mk USART2_BASE c) })
      ∧ (_write USART2_BASE file mem ptr (b.length : Int) w).2.uart.length
          = w.uart.length + b.length
      ∧ ∀ file1 : Int, _write USART2_BASE file1 mem ptr (b.length : Int) w
          = _write USART2_BASE file mem ptr (b.length : Int) w := by
  have hmap : (List.range b.length).map
        (fun (j : Nat) => UartCall.mk USART2_BASE (mem (ptr_add ptr (j : Int))))
      = b.map (fun c => UartCall.mk USART2_BASE c) := by
    have h1 : (List.range b.length).map
          (fun (j : Nat) => UartCall.mk USART2_BASE (mem (ptr_add ptr (j : Int))))
        = (List.range b.length).map (fun j => UartCall.mk USART2_BASE (b.getD j 0)) := by
      apply List.map_congr_left
      intro j hj
      rw [hb j (List.mem_range.1 hj)]
    have h2 : (List.range b.length).map (fun j => UartCall.mk USART2_BASE (b.getD j 0))
        = ((List.range b.length).map (fun j => b.getD j 0)).map
            (fun c => UartCall.mk USART2_BASE c) := by
      rw [List.map_map]
      rfl
    rw [h1, h2, range_map_getD]
  have hmain : _write USART2_BASE file mem ptr (b.length : Int) w
      = ((b.length : Int),
          { w with uart := w.uart ++ b.map (fun c => UartCall.mk USART2_BASE c) }) := by
    show ((b.length : Int), write_loop USART2_BASE mem (b.length : Int) 0 ptr w) = _
    rw [write_loop_spec USART2_BASE mem (b.length : Int) b.length 0 ptr w (by omega), hmap]
  refine ⟨hmain, ?_, fun _ => rfl⟩
  rw [hmain]
  simp

/-- C3, instance: `_write(1, "AB", 2)` makes exactly two calls of `xUARTCharPut`, with
`'A'` (65) and then `'B'` (66), and returns 2. -/
theorem write_transmits_buffer_witness :
    (∀ i, i < [65, 66].length → mem_AB (ptr_add ptr_AB (i : Int)) = [65, 66].getD i 0)
      ∧ _write 0x40004400 1 mem_AB ptr_AB 2 World.init
        = (2, { heap := NULL, uart := [⟨0x40004400, 65⟩, ⟨0x40004400, 66⟩] }) :=
  ⟨by decide, (write_transmits_buffer 0x40004400 1 mem_AB ptr_AB [65, 66] World.init
    (by decide)).1⟩

/-- C5: for every descriptor and every integer `len`, zero and negative included, `_write`
returns exactly `len`; when `len <= 0` it makes no call to `xUARTCharPut` (the state is
left as it was). -/
theorem write_returns_len (USART2_BASE : Nat) (file : Int) (mem : Addr → Nat) (ptr : Addr)
    (len : Int) (w : World) :
    (_write USART2_BASE file mem ptr len w).1 = len
      ∧ (len ≤ 0 → (_write USART2_BASE file mem ptr len w).2 = w) :=
  ⟨rfl, fun h => write_loop_done USART2_BASE mem len 0 ptr w h⟩

/-- C5, instance: `_write(1, ptr, -3)` returns `-3` and `_write(1, ptr, 0)` returns `0`,
neither transmitting anything. -/
theorem write_returns_len_witness :
    (_write 0x40004400 1 mem_AB ptr_AB (-3) World.init).1 = -3
      ∧ (_write 0x40004400 1 mem_AB ptr_AB (-3) World.init).2 = World.init
      ∧ (_write 0x40004400 1 mem_AB ptr_AB 0 World.init).1 = 0
      ∧ (_write 0x40004400 1 mem_AB ptr_AB 0 World.init).2 = World.init :=
  ⟨(write_returns_len 0x40004400 1 mem_AB ptr_AB (-3) World.init).1,
    (write_returns_len 0x40004400 1 mem_AB ptr_AB (-3) World.init).2 (by decide),
    (write_returns_len 0x40004400 1 mem_AB ptr_AB 0 World.init).1,
    (write_returns_len 0x40004400 1 mem_AB ptr_AB 0 World.init).2 (by decide)⟩

/-- C4 (amended): across every sequence of `_sbrk` calls whose increments are all
non-negative and whose total keeps the cursor below `2 ^ 32`, the heap cursor is
monotonically non-decreasing: the cursor value after each call is greater than or equal
to the cursor value before it. -/
theorem sbrk_cursor_monotone (E : Addr) (incs : List Int) (w : World)
    (hnn : ∀ i ∈ incs, 0 ≤ i)
    (hfit : ((cursor E w).val : Int) + incs.sum < 4294967296) :
    List.Chain (· ≤ ·) (cursor E w) (sbrk_cursors E incs w) :=
  sbrk_cursors_chain E incs w hnn hfit

/-- C4, instance: from the uninitialised cursor with `&_end = 0x20000000`, the calls
`_sbrk(100)`, `_sbrk(0)`, `_sbrk(50)` leave the cursor at `&_end + 100`, `&_end + 100`,
`&_end + 150`. -/
theorem sbrk_cursor_monotone_witness :
    (∀ i ∈ [(100 : Int), 0, 50], 0 ≤ i)
      ∧ sbrk_cursors SRAM_BASE [100, 0, 50] World.init
        = [⟨0x20000064, by decide⟩, ⟨0x20000064, by decide⟩, ⟨0x20000096, by decide⟩]
      ∧ List.Chain (· ≤ ·) (cursor SRAM_BASE World.init)
          (sbrk_cursors SRAM_BASE [100, 0, 50] World.init) :=
  ⟨by decide, by decide,
    sbrk_cursor_monotone SRAM_BASE [100, 0, 50] World.init (by decide) (by decide)⟩

/-- C4 as stated fails: with `&_end = 0x20000000`, after `_sbrk(100)` the cursor is
`0x20000064` and `_sbrk(-16)` moves it down to `0x20000054`; and after
`_sbrk(0x7FFFFFFF)` the cursor is `0x9FFFFFFF` and a second `_sbrk(0x7FFFFFFF)` wraps it
down to `0x1FFFFFFE`. -/
theorem sbrk_cursor_decreases :
    sbrk_cursors SRAM_BASE [100, -16] World.init
        = [⟨0x20000064, by decide⟩, ⟨0x20000054, by decide⟩]
      ∧ cursor SRAM_BASE (_sbrk SRAM_BASE (-16) (_sbrk SRAM_BASE 100 World.init).2).2
          < cursor SRAM_BASE (_sbrk SRAM_BASE 100 World.init).2
      ∧ ¬ List.Chain (· ≤ ·) (cursor SRAM_BASE World.init)
          (sbrk_cursors SRAM_BASE [100, -16] World.init)
      ∧ sbrk_cursors SRAM_BASE [0x7FFFFFFF, 0x7FFFFFFF] World.init
        = [⟨0x9FFFFFFF, by decide⟩, ⟨0x1FFFFFFE, by decide⟩]
      ∧ ¬ List.Chain (· ≤ ·) (cursor SRAM_BASE World.init)
          (sbrk_cursors SRAM_BASE [0x7FFFFFFF, 0x7FFFFFFF] World.init) := by
  refine ⟨by decide, by decide, ?_, by decide, ?_⟩
  · intro h
    exact absurd (List.chain_cons.1 (List.chain_cons.1 h).2).1 (by decide)
  · intro h
    exact absurd (List.chain_cons.1 (List.chain_cons.1 h).2).1 (by decide)

/-- C6: for every descriptor and every initial contents of the stat record, `_fstat`
returns 0 and the record afterwards is the initial record with `st_mode` replaced by
`S_IFCHR` (every other field, and the rest of the state, as before); the outcome is the
same for every descriptor. -/
theorem fstat_sets_mode {Rest : Type} (S_IFCHR : Nat) (file file1 : Int) (st : stat Rest)
    (w : World) :
    _fstat S_IFCHR file st w = (0, { st_mode := S_IFCHR, rest := st.rest }, w)
      ∧ _fstat S_IFCHR file1 st w = _fstat S_IFCHR file st w :=
  ⟨rfl, rfl⟩

/-- C7: for every descriptor `_close` returns -1 and for every pair of path arguments
`link` returns -1, and neither changes the state. -/
theorem close_link_fail (file : Int) (old new : Addr) (w : World) :
    _close file w = (-1, w) ∧ link old new w = (-1, w) :=
  ⟨rfl, rfl⟩

/-- C8: `_read` returns 0 for every descriptor, buffer and length and leaves the buffer
memory unchanged, `_lseek` returns 0 for every descriptor, offset and direction, and
`_isatty` returns 1 for every descriptor; none changes the state. -/
theorem read_lseek_isatty_const (file ptr dir len : Int) (buf : Addr) (mem : Addr → Nat)
    (w : World) :
    _read file buf len mem w = (0, mem, w)
      ∧ _lseek file ptr dir w = (0, w)
      ∧ _isatty file w = (1, w) :=
  ⟨rfl, rfl, rfl⟩

theorem abort_steps_loop : ∀ n : Nat, abort_steps n AbortPc.loop_test = AbortPc.loop_test := by
  intro n
  induction n with
  | zero => rfl
  | succ n ih =>
    show abort_steps n (abort_step AbortPc.loop_test) = AbortPc.loop_test
    have : abort_step AbortPc.loop_test = AbortPc.loop_test := by decide
    rw [this, ih]

theorem abort_none : ∀ (fuel : Nat) (w : World), abort fuel w = none := by
  intro fuel w
  induction fuel with
  | zero => rfl
  | succ n ih =>
    show (if (1 : Int) ≠ 0 then abort n w else some w) = none
    rw [if_pos (by decide), ih]

/-- C9: `abort` never returns: from the state on entry, after any number `n` of steps the
control is still at the loop test, not at a returned state, and run with any amount of
fuel the function has not returned. -/
theorem abort_never_returns (n fuel : Nat) (w : World) :
    abort_steps n AbortPc.loop_test = AbortPc.loop_test
      ∧ abort_steps n AbortPc.loop_test ≠ AbortPc.returned
      ∧ abort fuel w = none := by
  refine ⟨abort_steps_loop n, ?_, abort_none fuel w⟩
  rw [abort_steps_loop n]
  decide

/-- C10 (amended): for every heap cursor state and every increment `n` such that the
cursor plus `n` (modulo `2 ^ 32`) is not the null address, or `&_end` is itself null,
`_sbrk(n)` followed by `_sbrk(-n)` returns the original cursor and then the original
cursor plus `n`, and leaves the cursor equal to its value before the first call, an
uninitialised cursor counting as `&_end`. -/
theorem sbrk_grow_shrink (E : Addr) (w : World) (n : Int)
    (h : ptr_add (cursor E w) n ≠ NULL ∨ E = NULL) :
    (_sbrk E n w).1 = cursor E w
      ∧ (_sbrk E (-n) (_sbrk E n w).2).1 = ptr_add (cursor E w) n
      ∧ (_sbrk E (-n) (_sbrk E n w).2).2.heap = cursor E w
      ∧ cursor E (_sbrk E (-n) (_sbrk E n w).2).2 = cursor E w := by
  have hmid : cursor E (_sbrk E n w).2 = ptr_add (cursor E w) n := by
    show (if (_sbrk E n w).2.heap = NULL then E else (_sbrk E n w).2.heap) = _
    rw [sbrk_heap]
    by_cases hz : ptr_add (cursor E w) n = NULL
    · rw [if_pos hz, hz]
      rcases h with h | h
      · exact absurd hz h
      · exact h
    · rw [if_neg hz]
  have hheap : (_sbrk E (-n) (_sbrk E n w).2).2.heap = cursor E w := by
    rw [sbrk_heap, hmid, ptr_add_add, add_neg_cancel, ptr_add_zero]
  refine ⟨rfl, ?_, hheap, cursor_of_heap_eq E w _ hheap⟩
  rw [sbrk_ret, hmid]

/-- C10, instance: with `&_end = 0x20000000` and the cursor uninitialised, `_sbrk(100)`
returns `0x20000000`, `_sbrk(-100)` returns `0x20000064`, and the cursor is back at
`0x20000000`. -/
theorem sbrk_grow_shrink_witness :
    (_sbrk SRAM_BASE 100 World.init).1 = SRAM_BASE
      ∧ (_sbrk SRAM_BASE (-100) (_sbrk SRAM_BASE 100 World.init).2).1
          = ⟨0x20000064, by decide⟩
      ∧ (_sbrk SRAM_BASE (-100) (_sbrk SRAM_BASE 100 World.init).2).2.heap = SRAM_BASE
      ∧ cursor SRAM_BASE (_sbrk SRAM_BASE (-100) (_sbrk SRAM_BASE 100 World.init).2).2
          = SRAM_BASE :=
  sbrk_grow_shrink SRAM_BASE World.init 100 (Or.inl (by decide))

/-- C10 as stated fails when the first call brings the pointer to the null address: with
`&_end = 0x20000000` and the cursor uninitialised, `_sbrk(-0x20000000)` returns
`0x20000000` and leaves `heap` null; `_sbrk(0x20000000)` then initialises `heap` again,
returns `0x20000000` instead of the cursor plus `n` (which is 0), and leaves the cursor at
`0x40000000` instead of `0x20000000`. -/
theorem sbrk_round_trip_through_null :
    cursor SRAM_BASE World.init = SRAM_BASE
      ∧ (_sbrk SRAM_BASE (-0x20000000) World.init).1 = SRAM_BASE
      ∧ (_sbrk SRAM_BASE (-0x20000000) World.init).2.heap = NULL
      ∧ ptr_add (cursor SRAM_BASE World.init) (-0x20000000) = NULL
      ∧ (_sbrk SRAM_BASE (- -0x20000000) (_sbrk SRAM_BASE (-0x20000000) World.init).2).1
          = SRAM_BASE
      ∧ (_sbrk SRAM_BASE (- -0x20000000) (_sbrk SRAM_BASE (-0x20000000) World.init).2).1
          ≠ ptr_add (cursor SRAM_BASE World.init) (-0x20000000)
      ∧ cursor SRAM_BASE
            (_sbrk SRAM_BASE (- -0x20000000) (_sbrk SRAM_BASE (-0x20000000) World.init).2).2
          = ⟨0x40000000, by decide⟩
      ∧ cursor SRAM_BASE
            (_sbrk SRAM_BASE (- -0x20000000) (_sbrk SRAM_BASE (-0x20000000) World.init).2).2
          ≠ cursor SRAM_BASE World.init := by
  decide

end ReadAccData
